import Mathlib

/-!
# TerraControl: supervision core of the Terraria server wrapper

A shallow embedding of `terrariaserver.go` and `gameserver.go`:
the command queue, the player roster, the output scanner, the event
classifier and the connection tracker, followed by theorems about them.

Conventions of the embedding

* Go `int` is a 64-bit two's complement integer.  Values are `Int`s, and the
  additions and subtractions the source makes on counters go through `wrap64`.
* Go `string`s are Lean `String`s (sequences of Unicode code points).
* A Go `map[string]T` is an association list with distinct keys; a `range`
  loop visits the entries in the order of the list, so quantifying over all
  maps covers every iteration order.
* An instant (`time.Time`) is a number of nanoseconds; what `time.Now()`
  returns is an argument of the function that reads the clock.  A `select`
  with a timer is given the instant at which its other channel becomes ready.
* The logging helpers (`LogInit`, `LogDebug`, `LogInfo`, `LogWarning`,
  `LogOutput`) and `sprintf` are declared outside the sources.  A call is
  recorded as a `Log` value, in the order the calls are made; a formatted
  message is recorded as its format string and its arguments.
* The goroutines are modelled one at a time: a function describes what one
  routine does with the state it owns, and what it receives from another
  routine or from the clock is an argument.
-/

namespace TerraControl

/-! ## Machine integers -/

/-- Smallest value of a Go `int` on a 64-bit platform. -/
def minInt64 : Int := -9223372036854775808

/-- Largest value of a Go `int` on a 64-bit platform. -/
def maxInt64 : Int := 9223372036854775807

/-- Reduction of a mathematical integer to the 64-bit two's complement range. -/
def wrap64 (x : Int) : Int := (x + 9223372036854775808) % 18446744073709551616 - 9223372036854775808

/-- Go `a + b` on `int`. -/
def add64 (a b : Int) : Int := wrap64 (a + b)

/-- Go `a - b` on `int`. -/
def sub64 (a b : Int) : Int := wrap64 (a - b)

/-- The values a Go `int` variable can hold. -/
def inInt64 (x : Int) : Prop := minInt64 ≤ x ∧ x ≤ maxInt64

instance (x : Int) : Decidable (inInt64 x) := by
  unfold inInt64; exact inferInstance

/-- `time.Second`, in nanoseconds. -/
def Second : Int := 1000000000

/-! ## Logging -/

/-- Severity of a log call: one constructor per logging helper used by the sources. -/
inductive Level where
  | init
  | debug
  | info
  | warning
  | output
  deriving DecidableEq, Repr

/-- Argument of a formatted log message (`%s` or `%d`). -/
inductive Arg where
  | str (s : String)
  | int (n : Int)
  deriving DecidableEq, Repr

/-- One call to a logging helper: the helper, the message (or format string) and the
arguments handed to `sprintf`, if any. -/
structure Log where
  level : Level
  msg : String
  args : List Arg
  deriving DecidableEq, Repr

/-- `LogInit(s, msg)`. -/
def LogInit (msg : String) : Log := ⟨Level.init, msg, []⟩

/-- `LogDebug(s, msg)`. -/
def LogDebug (msg : String) : Log := ⟨Level.debug, msg, []⟩

/-- `LogInfo(s, msg)`. -/
def LogInfo (msg : String) : Log := ⟨Level.info, msg, []⟩

/-- `LogWarning(s, msg)`. -/
def LogWarning (msg : String) : Log := ⟨Level.warning, msg, []⟩

/-- `LogOutput(s, msg)`. -/
def LogOutput (msg : String) : Log := ⟨Level.output, msg, []⟩

/-! ## Players and the server record -/

/-- Result of `net.ParseIP`: `none` is the nil address, `some bs` the parsed bytes. -/
abbrev IP := Option (List Nat)

/-- `TerrariaPlayer`: the address and the name.  The back pointer to the owning
server is not represented. -/
structure TerrariaPlayer where
  ip : IP
  name : String
  deriving DecidableEq, Repr

/-- `TerrariaServer`: the fields read or written by the code modelled here.
`commandqueue` holds the contents of the buffered channel, oldest first; `players`
holds the players the slice of pointers refers to (each pointer occurs once). -/
structure TerrariaServer where
  commandqueue : List String
  commandcount : Int
  commandqueuemax : Int
  players : List TerrariaPlayer
  deriving DecidableEq, Repr

/-! ## Commandable -/

/-- `TerrariaServer.EnqueueCommand`.  The channel send appends `c + "\n"` to the
buffered contents (a send that finds the buffer full parks the caller until the dispatch
routine has received; the append is what the send has done once it completes).  The result
carries the log calls made. -/
def EnqueueCommand (s : TerrariaServer) (c : String) : TerrariaServer × List Log :=
  if s.commandcount < sub64 s.commandqueuemax 1 then
    ({ s with commandqueue := s.commandqueue ++ [c ++ "\n"]
              commandcount := add64 s.commandcount 1 }, [])
  else
    (s, [LogWarning "Attempted to run more than the maximum amount of commands!"])

/-- `SendCommand(s, cs)` for a `TerrariaServer`. -/
def SendCommand (c : String) (s : TerrariaServer) : TerrariaServer × List Log :=
  EnqueueCommand s c

/-- `NewTerrariaServer`: the record as the constructor leaves it, every modelled field at
its zero value (`Start` later sets `commandqueuemax` to 500). -/
def NewTerrariaServer : TerrariaServer :=
  { commandqueue := [], commandcount := 0, commandqueuemax := 0, players := [] }

/-! ## Process supervision -/

/-- Error values `Stop` can return: the one it creates itself with `errors.New`, or the
error value received from `Cmd.Wait`. -/
inductive GoError where
  | tookTooLong
  | wait (msg : String)
  deriving DecidableEq, Repr

/-- The two cases of the `select` in `Stop`. -/
inductive StopCase where
  | timer
  | done
  deriving DecidableEq, Repr

/-- The `select` of `Stop`, on a clock that starts when the select is entered and counts
nanoseconds.  The channel of `time.After(30 * time.Second)` is ready at 30 s.  The channel
`done` is ready once `s.Cmd.Wait()` has returned in the goroutine `Stop` launched: at
`some d`, or never (`none`) when the child does not end.  The select blocks until a channel
is ready and takes its case; when both are ready at the same instant the runtime picks
either, and `pickDone` is its pick.  Returns the case taken and the instant it is taken. -/
def stopSelect (waitReturns : Option Nat) (pickDone : Bool) : StopCase × Int :=
  match waitReturns with
  | none => (StopCase.timer, 30 * Second)
  | some d =>
    if (d : Int) < 30 * Second then (StopCase.done, (d : Int))
    else if (d : Int) = 30 * Second ∧ pickDone = true then (StopCase.done, (d : Int))
    else (StopCase.timer, 30 * Second)

/-- What a call of `Stop` has done when it returns: the state, the error returned, whether
`s.Cmd.Process.Kill()` was called, the instant of the return on the clock of `stopSelect`,
and the log calls. -/
structure StopResult where
  server : TerrariaServer
  err : Option GoError
  killed : Bool
  elapsed : Int
  logs : List Log
  deriving DecidableEq, Repr

/-- `TerrariaServer.Stop`.  `child` says what the wait on the child does: `some (d, e)` when
`s.Cmd.Wait()` returns `e` (nil is `none`) at instant `d`, `none` when it never returns.
The statements before and after the `select` take no time on the clock. -/
def Stop (s : TerrariaServer) (child : Option (Nat × Option String)) (pickDone : Bool) :
    StopResult :=
  let l1 := [LogOutput "Stopping Terraria server"]
  let sent := SendCommand "exit" s
  let l2 := [LogDebug "Waiting for Terraria to exit"]
  let sel := stopSelect (child.map Prod.fst) pickDone
  match sel.1 with
  | StopCase.timer =>
    { server := sent.1, err := some GoError.tookTooLong, killed := true, elapsed := sel.2,
      logs := l1 ++ sent.2 ++ l2 }
  | StopCase.done =>
    let l3 := [LogInfo "Terraria server has been stopped"]
    match child.bind Prod.snd with
    | some e =>
      { server := sent.1, err := some (GoError.wait e), killed := false, elapsed := sel.2,
        logs := l1 ++ sent.2 ++ l2 ++ l3 }
    | none =>
      { server := sent.1, err := none, killed := false, elapsed := sel.2,
        logs := l1 ++ sent.2 ++ l2 ++ l3 }

/-! ## Player roster -/

/-- `TerrariaPlayer.SetIP`.  The method has a value receiver: the assignment is made on the
copy of the player the call receives.  The function returns that copy; the player the
caller holds is not touched. -/
def TerrariaPlayer.SetIP (ParseIP : String → IP) (p : TerrariaPlayer) (ips : String) :
    TerrariaPlayer :=
  { p with ip := ParseIP ips }

/-- `TerrariaPlayer.IP`. -/
def TerrariaPlayer.IP (p : TerrariaPlayer) : IP := p.ip

/-- `TerrariaPlayer.Name`. -/
def TerrariaPlayer.Name (p : TerrariaPlayer) : String := p.name

/-- Loop of `TerrariaServer.Player`: the first player of the slice whose name is `n`. -/
def Player.loop (n : String) : List TerrariaPlayer → Option TerrariaPlayer
  | [] => none
  | p :: rest => if p.Name = n then some p else Player.loop n rest

/-- `TerrariaServer.Player`; `none` is the nil interface value. -/
def TerrariaServer.Player (s : TerrariaServer) (n : String) : Option TerrariaPlayer :=
  Player.loop n s.players

/-- `TerrariaServer.Players`: a copy of every player, in order. -/
def TerrariaServer.Players (s : TerrariaServer) : List TerrariaPlayer :=
  s.players

/-- What `NewPlayer` returns together with the state it leaves. -/
structure NewPlayerResult where
  server : TerrariaServer
  player : TerrariaPlayer
  logs : List Log
  deriving DecidableEq, Repr

/-- `TerrariaServer.NewPlayer`.  In the first branch `p.SetIP(ips)` runs on a copy of the
player found (value receiver), so the roster and the player returned are as before the
call.  In the second branch the address is written through the pointer just appended. -/
def NewPlayer (ParseIP : String → IP) (s : TerrariaServer) (n ips : String) : NewPlayerResult :=
  match s.Player n with
  | some p =>
    let _copy := p.SetIP ParseIP ips
    { server := s, player := p, logs := [] }
  | none =>
    let plr : TerrariaPlayer := { name := n, ip := ParseIP ips }
    { server := { s with players := s.players ++ [plr] }, player := plr,
      logs := [LogInfo ("New player logged: " ++ plr.Name)] }

/-- Loop of `TerrariaServer.RemovePlayer`: the index of the first player named `n`,
counting from `i`. -/
def RemovePlayer.loop (n : String) : List TerrariaPlayer → Nat → Option (Nat × TerrariaPlayer)
  | [], _ => none
  | p :: rest, i => if p.Name = n then some (i, p) else RemovePlayer.loop n rest (i + 1)

/-- `TerrariaServer.RemovePlayer`: at the first index `i` whose player is named `n` the
slice becomes `append(players[:i], players[i+1:]...)` and the call returns true. -/
def RemovePlayer (s : TerrariaServer) (n : String) : TerrariaServer × Bool × List Log :=
  match RemovePlayer.loop n s.players 0 with
  | some (i, p) =>
    ({ s with players := s.players.take i ++ s.players.drop (i + 1) }, true,
      [LogInfo ("Removing " ++ p.Name)])
  | none => (s, false, [])

/-- A call made on the roster. -/
inductive RosterCall where
  | newPlayer (n ips : String)
  | removePlayer (n : String)
  deriving DecidableEq, Repr

/-- The roster after one call. -/
def RosterCall.run (ParseIP : String → IP) (s : TerrariaServer) : RosterCall → TerrariaServer
  | RosterCall.newPlayer n ips => (NewPlayer ParseIP s n ips).server
  | RosterCall.removePlayer n => (RemovePlayer s n).1

/-- The roster after a sequence of calls, starting from a freshly constructed server. -/
def runRoster (ParseIP : String → IP) (calls : List RosterCall) : TerrariaServer :=
  calls.foldl (RosterCall.run ParseIP) NewTerrariaServer

/-- The names on the roster, in order. -/
def names (s : TerrariaServer) : List String := s.players.map TerrariaPlayer.Name

/-- Value of a run of decimal digits, most significant first; `none` if a character is not a
digit. -/
def decimal : List Char → Nat → Option Nat
  | [], acc => some acc
  | c :: cs, acc => if c.isDigit then decimal cs (acc * 10 + (c.toNat - 48)) else none

/-- One field of a dotted quad: one to three digits, no leading zero, at most 255. -/
def octet (cs : List Char) : Option Nat :=
  if cs = [] ∨ 3 < cs.length ∨ (1 < cs.length ∧ cs.head? = some '0') then none
  else (decimal cs 0).bind fun v => if v ≤ 255 then some v else none

/-- Splits at every dot. -/
def splitDots : List Char → List (List Char)
  | [] => [[]]
  | c :: cs =>
    match splitDots cs with
    | [] => [[]]
    | f :: fs => if c = '.' then [] :: f :: fs else (c :: f) :: fs

/-- `net.ParseIP` on dotted decimal IPv4 text, which it returns in 16-byte form.  Any other
text is sent to the nil address: IPv6 text is outside the domain of this function, which
serves to evaluate the roster on concrete IPv4 addresses. -/
def ParseIPv4 (s : String) : IP :=
  match (splitDots s.data).map octet with
  | [some a, some b, some c, some d] => some [0, 0, 0, 0, 0, 0, 0, 0, 0, 0, 255, 255, a, b, c, d]
  | _ => none

/-! ## Event classification -/

/-- A compiled `*regexp.Regexp`: the expression it was compiled from and the predicate its
`MatchString` method computes. -/
structure Regexp where
  expr : String
  MatchString : String → Bool

/-- Loop of `EventType`, at index `i` of the table. -/
def EventType.loop : List Regexp → String → Nat → Int
  | [], _, _ => -1
  | re :: rest, s, i => if re.MatchString s then (i : Int) else EventType.loop rest s (i + 1)

/-- `EventType(s, gs)` over the table `gameEvents`; the server argument is not used by the
source. -/
def EventType (gameEvents : List Regexp) (s : String) : Int :=
  EventType.loop gameEvents s 0

/-- One character position of an expression: a literal, or `.` (any character but a line
feed). -/
inductive Atom where
  | lit (c : Char)
  | any
  deriving DecidableEq, Repr

/-- Whether the atom accepts the character. -/
def Atom.accepts : Atom → Char → Bool
  | Atom.lit c, x => decide (x = c)
  | Atom.any, x => decide (x ≠ Char.ofNat 10)

/-- A piece of an anchored expression: one atom, or an atom repeated `lo` to `hi` times. -/
inductive Piece where
  | one (a : Atom)
  | rep (a : Atom) (lo hi : Nat)
  deriving DecidableEq, Repr

/-- Matches `a{lo,hi}` at the head of the text and hands the rest to `k`. -/
def matchRep (k : List Char → Bool) (a : Atom) : Nat → Nat → List Char → Bool
  | 0, 0, s => k s
  | 0, hi + 1, s =>
    k s || (match s with
      | [] => false
      | c :: cs => a.accepts c && matchRep k a 0 hi cs)
  | _ + 1, 0, _ => false
  | lo + 1, hi + 1, s =>
    match s with
    | [] => false
    | c :: cs => a.accepts c && matchRep k a lo hi cs

/-- Whether the whole text matches the pieces in sequence (an expression of the form
`^ ... $`). -/
def matchPieces : List Piece → List Char → Bool
  | [], s => s.isEmpty
  | Piece.one a :: ps, s =>
    match s with
    | [] => false
    | c :: cs => a.accepts c && matchPieces ps cs
  | Piece.rep a lo hi :: ps, s => matchRep (matchPieces ps) a lo hi s

/-- The expression `regexp.MustCompile("^.{1,20} has joined.$")` of `init`. -/
def joinedRe : Regexp :=
  { expr := "^.{1,20} has joined.$"
    MatchString := fun s =>
      matchPieces ([Piece.rep Atom.any 1 20] ++
        " has joined".data.map (fun c => Piece.one (Atom.lit c)) ++ [Piece.one Atom.any]) s.data }

/-- The table `gameEvents` after `init` has run. -/
def gameEvents : List Regexp := [] ++ [joinedRe]

/-! ## Output scanner -/

/-- `unicode.IsSpace`. -/
def isSpace (c : Char) : Bool :=
  let n := c.toNat
  (9 ≤ n && n ≤ 13) || n = 32 || n = 133 || n = 160 || n = 5760 || (8192 ≤ n && n ≤ 8202) ||
    n = 8232 || n = 8233 || n = 8239 || n = 8287 || n = 12288

/-- `strings.HasPrefix`. -/
def HasPrefix (s p : String) : Bool :=
  decide (s.data.take p.length = p.data)

/-- `strings.TrimPrefix`. -/
def TrimPrefix (s p : String) : String :=
  if HasPrefix s p then String.mk (s.data.drop p.length) else s

/-- `strings.TrimSpace`: leading and trailing white space removed. -/
def TrimSpace (s : String) : String :=
  String.mk ((s.data.dropWhile isSpace).reverse.dropWhile isSpace).reverse

/-- Body of the stripping loop of `superviseTerrariaOut`. -/
def stripOnce (out : String) : String :=
  TrimSpace (TrimPrefix out ":")

/-- The stripping loop of `superviseTerrariaOut`:
`for strings.HasPrefix(out, ":") { out = TrimPrefix(out, ":"); out = TrimSpace(out) }`. -/
def stripLoop (out : String) : String :=
  if HasPrefix out ":" then stripLoop (stripOnce out) else out
termination_by out.length
decreasing_by
  rename_i h
  have hp : out.data.take 1 = [Char.ofNat 58] := by
    simpa [HasPrefix] using h
  have hlen : 1 ≤ out.data.length := by
    cases hd : out.data with
    | nil => rw [hd] at hp; simp at hp
    | cons c cs => simp
  have h1 : ∀ l : List Char, (l.dropWhile isSpace).length ≤ l.length := fun l =>
    (List.dropWhile_sublist isSpace).length_le
  have h2 : (TrimSpace (TrimPrefix out ":")).length ≤ (TrimPrefix out ":").length := by
    simp only [TrimSpace, String.length, List.length_reverse]
    exact le_trans (h1 _) (by simpa using h1 _)
  have h3 : (TrimPrefix out ":").length = out.length - 1 := by
    unfold TrimPrefix
    rw [if_pos h]
    show (out.data.drop 1).length = out.data.length - 1
    exact List.length_drop 1 out.data
  simp only [stripOnce]
  have h4 : out.length = out.data.length := rfl
  omega

/-- Modelled from the spec: the `Event` type is declared outside the sources ("classification
kind ..., raw source line, and any captured substrings").  Only the field the scanner reads,
`name`, is represented. -/
structure Event where
  name : String
  deriving DecidableEq, Repr

/-- The two channels `superviseTerrariaOut` creates for the connection tracker. -/
inductive Chan where
  | cch
  | pch
  deriving DecidableEq, Repr

/-- What the scanner does, in order: a log call, `close(ready)`, or a call
`e.Handler(s, out, ch)` (`none` is the nil channel). -/
inductive Action where
  | log (l : Log)
  | closeReady
  | handler (e : Event) (out : String) (ch : Option Chan)
  deriving DecidableEq, Repr

/-- The `case <-ready` branch of the scanner for the cleaned line `out`. -/
def classify (GetEventFromString : String → Event) (out : String) : Action :=
  let e := GetEventFromString out
  if e.name = "EventConnection" then Action.handler e out (some Chan.cch)
  else if e.name = "EventPlayerInfo" then Action.handler e out (some Chan.pch)
  else Action.handler e out none

/-- One iteration of the scanning loop of `superviseTerrariaOut`.  `ready` tells whether the
channel `ready` is closed: the receive of the `select` succeeds exactly then, otherwise the
`default` branch runs.  `GetEventFromString` is declared outside the sources and taken as a
parameter. -/
def scanLine (GetEventFromString : String → Event) (ready : Bool) (text : String) :
    Bool × List Action :=
  let out := stripLoop text
  if ready then
    (ready, [classify GetEventFromString out])
  else
    if out = "Server started" then
      (true, [Action.log (LogInit "Terraria server INIT completed"), Action.closeReady])
    else
      (ready, [Action.log (LogInit out)])

/-- The scanning loop over the lines the scanner delivers, from a given state of `ready`. -/
def scanLines (GetEventFromString : String → Event) : Bool → List String → Bool × List Action
  | ready, [] => (ready, [])
  | ready, text :: rest =>
    let r := scanLine GetEventFromString ready text
    let r2 := scanLines GetEventFromString r.1 rest
    (r2.1, r.2 ++ r2.2)

/-- `superviseTerrariaOut` on the lines `scanner.Text()` delivers: `ready` is open when the
routine starts.  Returns whether `ready` is closed at the end and the actions taken, in
order.  The launch of `superviseTerrariaConnects` is not recorded as an action. -/
def superviseTerrariaOut (GetEventFromString : String → Event) (lines : List String) :
    Bool × List Action :=
  let r := scanLines GetEventFromString false lines
  (r.1, Action.log (LogDebug "Started Terraria supervisor") :: r.2)

/-! ## Connection tracker -/

/-- A Go `map[string]T`: an association list with distinct keys. -/
abbrev GoMap (α : Type) := AList (fun _ : String => α)

/-- `t.Sub(u)` on instants given in nanoseconds: the difference as a `time.Duration`, held
at the largest or smallest duration when it does not fit into 64 bits. -/
def Sub (t u : Int) : Int :=
  if maxInt64 < t - u then maxInt64 else if t - u < minInt64 then minInt64 else t - u

/-- The two maps owned by `superviseTerrariaConnects`: for each pending address the instant
it was (last) seen, and the stale counts. -/
structure Tracker where
  newconnections : GoMap Int
  stale : GoMap Int

/-- The statement `if num, ok := stale[ip]; ok { stale[ip] = num + 1 } else { stale[ip] = 1 }`
that both the timer branch and the connection branch contain. -/
def bumpStale (stale : GoMap Int) (ip : String) : GoMap Int :=
  match stale.lookup ip with
  | some num => stale.insert ip (add64 num 1)
  | none => stale.insert ip 1

/-- Body of the first loop of the timer branch for the entry `e` of `newconnections`;
`now e.1` is what `time.Now()` returns in that iteration. -/
def sweepPendingStep (now : String → Int) (acc : Tracker × List Log)
    (e : (_ : String) × Int) : Tracker × List Log :=
  if 30 * Second < Sub (now e.1) e.2 then
    ({ newconnections := acc.1.newconnections.erase e.1, stale := bumpStale acc.1.stale e.1 },
      acc.2 ++ [LogWarning ("Stale connection found for IP: " ++ e.1)])
  else acc

/-- First loop of the timer branch: `for ip, t := range newconnections`. -/
def sweepPending (now : String → Int) (t : Tracker) : Tracker × List Log :=
  t.newconnections.entries.foldl (sweepPendingStep now) (t, [])

/-- The second warning of the threshold loop:
`sprintf("IP: %s | Stale Connections: %d", ip, cnt)`. -/
def dosDetail (ip : String) (cnt : Int) : Log :=
  ⟨Level.warning, "IP: %s | Stale Connections: %d", [Arg.str ip, Arg.int cnt]⟩

/-- Body of the second loop of the timer branch for the entry `e` of `stale`: the warnings
are inside the `if cnt > 25`, the `delete(stale, ip)` follows it. -/
def sweepStaleStep (acc : Tracker × List Log) (e : (_ : String) × Int) : Tracker × List Log :=
  let logs := if 25 < e.2 then
      acc.2 ++ [LogWarning "Possible DoS taking place!", dosDetail e.1 e.2]
    else acc.2
  ({ acc.1 with stale := acc.1.stale.erase e.1 }, logs)

/-- Second loop of the timer branch: `for ip, cnt := range stale`. -/
def sweepStale (t : Tracker) : Tracker × List Log :=
  t.stale.entries.foldl sweepStaleStep (t, [])

/-- The `case <-time.After(5 * time.Second)` branch of `superviseTerrariaConnects`. -/
def timerBranch (now : String → Int) (t : Tracker) : Tracker × List Log :=
  let r1 := sweepPending now t
  let r2 := sweepStale r1.1
  (r2.1, r1.2 ++ r2.2)

/-- The `case c := <-cch` branch of `superviseTerrariaConnects`; `now` is what `time.Now()`
returns. -/
def connectionBranch (now : Int) (t : Tracker) (c : String) : Tracker × List Log :=
  let l1 := [LogDebug "Adding channeled connection to list"]
  if (t.newconnections.lookup c).isSome then
    ({ newconnections := t.newconnections.insert c now, stale := bumpStale t.stale c },
      l1 ++ [LogWarning ("Extra connection found for IP: " ++ c)])
  else
    ({ t with newconnections := t.newconnections.insert c now }, l1)

/-- The `case plr := <-pch` branch of `superviseTerrariaConnects`.  `FindStringSubmatch` is
the method of `gameEventsMap["EventPlayerInfo"].Capture`, a table declared outside the
sources; it returns the list of submatches, empty (nil) when the expression does not match.
`none` is the run-time panic of an index out of range in `m[2]` or `m[1]`. -/
def playerInfoBranch (FindStringSubmatch : String → List String) (t : Tracker) (plr : String) :
    Option (Tracker × List Log) :=
  let l1 := [LogDebug ("Received player info: " ++ plr)]
  let m := FindStringSubmatch plr
  match m[2]? with
  | none => none
  | some ip =>
    match m[1]? with
    | none => none
    | some name =>
      let r1 : GoMap Int × List Log :=
        if (t.newconnections.lookup ip).isSome then
          (t.newconnections.erase ip,
            [⟨Level.debug, "Removed connection for IP: %s [%s]", [Arg.str ip, Arg.str name]⟩])
        else (t.newconnections, [])
      let r2 : GoMap Int × List Log :=
        if (t.stale.lookup ip).isSome then
          (t.stale.erase ip, [LogDebug ("Cleared stale connection count for IP: " ++ ip)])
        else (t.stale, [])
      some ({ newconnections := r1.1, stale := r2.1 }, l1 ++ r1.2 ++ r2.2)

/-- What the `select` of `superviseTerrariaConnects` receives in one iteration, with the
clock readings of that iteration. -/
inductive TrackerEvent where
  | timer (now : String → Int)
  | connection (c : String) (now : Int)
  | playerInfo (plr : String)

/-- One iteration of the `for { select { ... } }` of `superviseTerrariaConnects`. -/
def superviseTerrariaConnects (FindStringSubmatch : String → List String) (t : Tracker) :
    TrackerEvent → Option (Tracker × List Log)
  | TrackerEvent.timer now => some (timerBranch now t)
  | TrackerEvent.connection c now => some (connectionBranch now t c)
  | TrackerEvent.playerInfo plr => playerInfoBranch FindStringSubmatch t plr

/-- The count the statement of `bumpStale` stores, given the entry found. -/
def nextCount : Option Int → Int
  | some num => add64 num 1
  | none => 1

/-- The stale count of an address: the entry of the map, zero when there is none. -/
def staleCount (stale : GoMap Int) (ip : String) : Int :=
  (stale.lookup ip).getD 0

/-! ## Theorems -/

theorem wrap64_of_inInt64 {x : Int} (h : inInt64 x) : wrap64 x = x := by
  unfold inInt64 minInt64 maxInt64 at h
  unfold wrap64
  omega

theorem wrap64_inInt64 (x : Int) : inInt64 (wrap64 x) := by
  unfold inInt64 minInt64 maxInt64 wrap64
  omega

/-- C1. With a Go-int `commandcount`: below `commandqueuemax - 1` the command (newline
terminated) is appended to the queue and `commandcount` grows by exactly one; otherwise the
state is unchanged and only the warning is logged. -/
theorem EnqueueCommand_bounded (s : TerrariaServer) (c : String) (hc : inInt64 s.commandcount) :
    (s.commandcount < sub64 s.commandqueuemax 1 →
      (EnqueueCommand s c).1.commandqueue = s.commandqueue ++ [c ++ "\n"] ∧
      (EnqueueCommand s c).1.commandcount = s.commandcount + 1 ∧
      (EnqueueCommand s c).1.commandqueuemax = s.commandqueuemax ∧
      (EnqueueCommand s c).1.players = s.players ∧
      (EnqueueCommand s c).2 = []) ∧
    (sub64 s.commandqueuemax 1 ≤ s.commandcount →
      (EnqueueCommand s c).1 = s ∧
      (EnqueueCommand s c).2 =
        [LogWarning "Attempted to run more than the maximum amount of commands!"]) ∧
    (minInt64 < s.commandqueuemax → s.commandqueuemax ≤ maxInt64 →
      sub64 s.commandqueuemax 1 = s.commandqueuemax - 1) := by
  refine ⟨fun h => ?_, fun h => ?_, fun h1 h2 => ?_⟩
  · have hb := wrap64_inInt64 (s.commandqueuemax - 1)
    have hadd : add64 s.commandcount 1 = s.commandcount + 1 := by
      apply wrap64_of_inInt64
      unfold sub64 at h
      unfold inInt64 minInt64 maxInt64 at *
      omega
    simp [EnqueueCommand, h, hadd]
  · have h' : ¬ s.commandcount < sub64 s.commandqueuemax 1 := not_lt.mpr h
    simp [EnqueueCommand, h']
  · apply wrap64_of_inInt64
    unfold inInt64 minInt64 maxInt64 at *
    omega

/-- Witness for C1: a started server (`commandqueuemax = 500`) with two commands queued. -/
theorem EnqueueCommand_bounded_witness :
    (EnqueueCommand ⟨["seed\n", "version\n"], 2, 500, []⟩ "password").1.commandqueue
        = ["seed\n", "version\n", "password\n"] ∧
    (EnqueueCommand ⟨["seed\n", "version\n"], 2, 500, []⟩ "password").1.commandcount
        = 3 := by
  have h := (EnqueueCommand_bounded ⟨["seed\n", "version\n"], 2, 500, []⟩
    "password" (by decide)).1 (by decide)
  exact ⟨h.1, h.2.1⟩

/-! ### Process supervision -/

theorem stopSelect_cases (w : Option Nat) (pickDone : Bool) :
    (∃ d : Nat, w = some d ∧ (d : Int) ≤ 30 * Second ∧
        stopSelect w pickDone = (StopCase.done, (d : Int))) ∨
    ((∀ d : Nat, w = some d → 30 * Second ≤ (d : Int)) ∧
        stopSelect w pickDone = (StopCase.timer, 30 * Second)) := by
  cases w with
  | none =>
    right
    exact ⟨fun d h => (by cases h), rfl⟩
  | some d =>
    unfold stopSelect
    by_cases h1 : (d : Int) < 30 * Second
    · left
      exact ⟨d, rfl, le_of_lt h1, by simp [h1]⟩
    · by_cases h2 : (d : Int) = 30 * Second ∧ pickDone = true
      · left
        exact ⟨d, rfl, le_of_eq h2.1, by simp only [h1, h2, if_false]; simp⟩
      · right
        refine ⟨fun d' h => ?_, by simp only [h1, h2, if_false]⟩
        cases h
        exact not_lt.mp h1

theorem stopSelect_early (d : Nat) (pickDone : Bool) (h : (d : Int) < 30 * Second) :
    stopSelect (some d) pickDone = (StopCase.done, (d : Int)) := by
  simp [stopSelect, h]

theorem Stop_of_timer (s : TerrariaServer) (child : Option (Nat × Option String))
    (pickDone : Bool) (t : Int)
    (h : stopSelect (child.map Prod.fst) pickDone = (StopCase.timer, t)) :
    (Stop s child pickDone).err = some GoError.tookTooLong ∧
    (Stop s child pickDone).killed = true ∧
    (Stop s child pickDone).elapsed = t ∧
    (Stop s child pickDone).server = (EnqueueCommand s "exit").1 := by
  simp [Stop, h, SendCommand]

theorem Stop_of_done (s : TerrariaServer) (child : Option (Nat × Option String))
    (pickDone : Bool) (t : Int)
    (h : stopSelect (child.map Prod.fst) pickDone = (StopCase.done, t)) :
    (Stop s child pickDone).err = (child.bind Prod.snd).map GoError.wait ∧
    (Stop s child pickDone).killed = false ∧
    (Stop s child pickDone).elapsed = t ∧
    (Stop s child pickDone).server = (EnqueueCommand s "exit").1 := by
  simp only [Stop, h, SendCommand]
  cases child.bind Prod.snd <;> simp

/-- C8 (as stated) fails: when the child ends after 2 s and `Cmd.Wait` reports an error,
`Stop` returns that error, which is neither nil nor the timeout error, and `Kill` is not
called. -/
theorem Stop_two_outcomes_counterexample :
    (Stop ⟨[], 0, 500, []⟩ (some (2000000000, some "exit status 1")) false).err
        = some (GoError.wait "exit status 1") ∧
    (Stop ⟨[], 0, 500, []⟩ (some (2000000000, some "exit status 1")) false).killed = false ∧
    (Stop ⟨[], 0, 500, []⟩ (some (2000000000, some "exit status 1")) false).elapsed
        = 2 * Second ∧
    ¬ ((Stop ⟨[], 0, 500, []⟩ (some (2000000000, some "exit status 1")) false).err = none ∨
       ((Stop ⟨[], 0, 500, []⟩ (some (2000000000, some "exit status 1")) false).err
            = some GoError.tookTooLong ∧
          (Stop ⟨[], 0, 500, []⟩ (some (2000000000, some "exit status 1")) false).killed
            = true)) := by
  decide

/-- C8 (amended). Whatever the child does, also when the wait on it never returns, `Stop`
returns within the timeout window: no later than 30 s after it started waiting.  Its result
is one of exactly three: nil, the wait on the child having returned nil by then; the error
the wait on the child returned, the child not killed; or the timeout error at 30 s, the wait
not having returned before and the child killed.  `Kill` is invoked if and only if the
timeout error is returned.  A child that never ends is killed; a child whose wait returns
before 30 s is never killed and `Stop` returns what the wait returned, at that instant. -/
theorem Stop_within_window (s : TerrariaServer) (child : Option (Nat × Option String))
    (pickDone : Bool) :
    (0 ≤ (Stop s child pickDone).elapsed ∧ (Stop s child pickDone).elapsed ≤ 30 * Second) ∧
    ((∃ d : Nat, child = some (d, none) ∧ (Stop s child pickDone).elapsed = (d : Int) ∧
        (Stop s child pickDone).err = none ∧ (Stop s child pickDone).killed = false) ∨
     (∃ (d : Nat) (e : String), child = some (d, some e) ∧
        (Stop s child pickDone).elapsed = (d : Int) ∧
        (Stop s child pickDone).err = some (GoError.wait e) ∧
        (Stop s child pickDone).killed = false) ∨
     ((∀ d e, child = some (d, e) → 30 * Second ≤ (d : Int)) ∧
        (Stop s child pickDone).elapsed = 30 * Second ∧
        (Stop s child pickDone).err = some GoError.tookTooLong ∧
        (Stop s child pickDone).killed = true)) ∧
    ((Stop s child pickDone).killed = true ↔
      (Stop s child pickDone).err = some GoError.tookTooLong) ∧
    (child = none →
      (Stop s child pickDone).err = some GoError.tookTooLong ∧
      (Stop s child pickDone).killed = true ∧
      (Stop s child pickDone).elapsed = 30 * Second) ∧
    (∀ d e, child = some (d, e) → (d : Int) < 30 * Second →
      (Stop s child pickDone).err = e.map GoError.wait ∧
      (Stop s child pickDone).killed = false ∧
      (Stop s child pickDone).elapsed = (d : Int)) ∧
    (Stop s child pickDone).server = (EnqueueCommand s "exit").1 := by
  have hthree :
      (∃ d : Nat, child = some (d, none) ∧ (d : Int) ≤ 30 * Second ∧
          (Stop s child pickDone).elapsed = (d : Int) ∧
          (Stop s child pickDone).err = none ∧ (Stop s child pickDone).killed = false) ∨
      (∃ (d : Nat) (e : String), child = some (d, some e) ∧ (d : Int) ≤ 30 * Second ∧
          (Stop s child pickDone).elapsed = (d : Int) ∧
          (Stop s child pickDone).err = some (GoError.wait e) ∧
          (Stop s child pickDone).killed = false) ∨
      ((∀ d e, child = some (d, e) → 30 * Second ≤ (d : Int)) ∧
          (Stop s child pickDone).elapsed = 30 * Second ∧
          (Stop s child pickDone).err = some GoError.tookTooLong ∧
          (Stop s child pickDone).killed = true) := by
    rcases stopSelect_cases (child.map Prod.fst) pickDone with ⟨d, hd, hle, hsel⟩ | ⟨hall, hsel⟩
    · obtain ⟨h1, h2, h3, -⟩ := Stop_of_done s child pickDone _ hsel
      cases child with
      | none => simp at hd
      | some c =>
        obtain ⟨d', e⟩ := c
        have hd' : d' = d := by simpa using hd
        subst hd'
        cases e with
        | none => exact Or.inl ⟨d', rfl, hle, h3, by simpa using h1, h2⟩
        | some e => exact Or.inr (Or.inl ⟨d', e, rfl, hle, h3, by simpa using h1, h2⟩)
    · obtain ⟨h1, h2, h3, -⟩ := Stop_of_timer s child pickDone _ hsel
      exact Or.inr (Or.inr ⟨fun d e h => hall d (by rw [h]; rfl), h3, h1, h2⟩)
  have hsec : (0 : Int) ≤ 30 * Second := by unfold Second; omega
  refine ⟨?_, ?_, ?_, ?_, ?_, ?_⟩
  · rcases hthree with ⟨d, -, hle, he, -, -⟩ | ⟨d, e, -, hle, he, -, -⟩ | ⟨-, he, -, -⟩
    · rw [he]; exact ⟨Int.ofNat_nonneg d, hle⟩
    · rw [he]; exact ⟨Int.ofNat_nonneg d, hle⟩
    · rw [he]; exact ⟨hsec, le_refl _⟩
  · rcases hthree with ⟨d, h1, -, h2, h3, h4⟩ | ⟨d, e, h1, -, h2, h3, h4⟩ | h
    · exact Or.inl ⟨d, h1, h2, h3, h4⟩
    · exact Or.inr (Or.inl ⟨d, e, h1, h2, h3, h4⟩)
    · exact Or.inr (Or.inr h)
  · rcases hthree with ⟨d, -, -, -, h3, h4⟩ | ⟨d, e, -, -, -, h3, h4⟩ | ⟨-, -, h3, h4⟩
    · simp [h3, h4]
    · simp [h3, h4]
    · simp [h3, h4]
  · intro hc
    subst hc
    obtain ⟨h1, h2, h3, -⟩ := Stop_of_timer s none pickDone (30 * Second) rfl
    exact ⟨h1, h2, h3⟩
  · intro d e hc hlt
    subst hc
    obtain ⟨h1, h2, h3, -⟩ :=
      Stop_of_done s (some (d, e)) pickDone (d : Int) (stopSelect_early d pickDone hlt)
    exact ⟨by simpa using h1, h2, h3⟩
  · rcases stopSelect_cases (child.map Prod.fst) pickDone with ⟨d, -, -, hsel⟩ | ⟨-, hsel⟩
    · exact (Stop_of_done s child pickDone _ hsel).2.2.2
    · exact (Stop_of_timer s child pickDone _ hsel).2.2.2

/-- Witness for C8 (amended): a child that never ends, and a child that ends cleanly after
2 s. -/
theorem Stop_within_window_witness :
    ((Stop ⟨[], 0, 500, []⟩ none false).err = some GoError.tookTooLong ∧
      (Stop ⟨[], 0, 500, []⟩ none false).killed = true ∧
      (Stop ⟨[], 0, 500, []⟩ none false).elapsed = 30 * Second) ∧
    ((Stop ⟨[], 0, 500, []⟩ (some (2000000000, none)) false).err = none ∧
      (Stop ⟨[], 0, 500, []⟩ (some (2000000000, none)) false).killed = false ∧
      (Stop ⟨[], 0, 500, []⟩ (some (2000000000, none)) false).elapsed = 2000000000) :=
  ⟨(Stop_within_window ⟨[], 0, 500, []⟩ none false).2.2.2.1 rfl,
    (Stop_within_window ⟨[], 0, 500, []⟩ (some (2000000000, none)) false).2.2.2.2.1
      2000000000 none rfl (by decide)⟩

/-! ### Player roster -/

theorem Player_loop_eq_none {n : String} {ps : List TerrariaPlayer} :
    Player.loop n ps = none ↔ n ∉ ps.map TerrariaPlayer.Name := by
  induction ps with
  | nil => simp [Player.loop]
  | cons p rest ih =>
    by_cases h : p.Name = n
    · simp [Player.loop, h]
    · have h' : ¬ n = p.Name := fun e => h e.symm
      simp [Player.loop, h, h', ih]

theorem Player_loop_some {n : String} {ps : List TerrariaPlayer} {p : TerrariaPlayer}
    (h : Player.loop n ps = some p) : p ∈ ps ∧ p.Name = n := by
  induction ps with
  | nil => simp [Player.loop] at h
  | cons q rest ih =>
    by_cases hq : q.Name = n
    · simp [Player.loop, hq] at h
      subst h
      exact ⟨List.mem_cons_self _ _, hq⟩
    · simp [Player.loop, hq] at h
      exact ⟨List.mem_cons_of_mem _ (ih h).1, (ih h).2⟩

theorem RemovePlayer_loop_eq_none {n : String} {ps : List TerrariaPlayer} {i : Nat} :
    RemovePlayer.loop n ps i = none ↔ n ∉ ps.map TerrariaPlayer.Name := by
  induction ps generalizing i with
  | nil => simp [RemovePlayer.loop]
  | cons p rest ih =>
    by_cases h : p.Name = n
    · simp [RemovePlayer.loop, h]
    · have h' : ¬ n = p.Name := fun e => h e.symm
      simp [RemovePlayer.loop, h, h', ih]

/-- The slice expression of `RemovePlayer` drops the first player named `n` and nothing
else. -/
theorem RemovePlayer_loop_some {n : String} {ps : List TerrariaPlayer} {i k : Nat}
    {p : TerrariaPlayer} (h : RemovePlayer.loop n ps i = some (k, p)) :
    i ≤ k ∧ p.Name = n ∧
      ps.take (k - i) ++ ps.drop (k - i + 1) = ps.eraseP (fun q => decide (q.Name = n)) := by
  induction ps generalizing i with
  | nil => simp [RemovePlayer.loop] at h
  | cons q rest ih =>
    by_cases hq : q.Name = n
    · simp [RemovePlayer.loop, hq] at h
      obtain ⟨rfl, rfl⟩ := h
      simp [hq]
    · simp [RemovePlayer.loop, hq] at h
      obtain ⟨h1, h2, h3⟩ := ih h
      refine ⟨by omega, h2, ?_⟩
      have e : k - i = (k - (i + 1)) + 1 := by omega
      rw [e, List.take_succ_cons, List.drop_succ_cons, List.eraseP_cons_of_neg (by simpa using hq)]
      simp [h3]

theorem not_mem_names_eraseP {n : String} {ps : List TerrariaPlayer}
    (h : (ps.map TerrariaPlayer.Name).Nodup) :
    n ∉ (ps.eraseP (fun q => decide (q.Name = n))).map TerrariaPlayer.Name := by
  induction ps with
  | nil => simp
  | cons q rest ih =>
    rw [List.map_cons, List.nodup_cons] at h
    by_cases hq : q.Name = n
    · rw [List.eraseP_cons_of_pos (by simpa using hq)]
      rw [← hq]; exact h.1
    · rw [List.eraseP_cons_of_neg (by simpa using hq)]
      simp only [List.map_cons, List.mem_cons, not_or]
      exact ⟨fun e => hq e.symm, ih h.2⟩

theorem NewPlayer_names (ParseIP : String → IP) (s : TerrariaServer) (n ips : String) :
    names (NewPlayer ParseIP s n ips).server = if n ∈ names s then names s else names s ++ [n] := by
  unfold NewPlayer TerrariaServer.Player
  cases h : Player.loop n s.players with
  | none =>
    have := Player_loop_eq_none.mp h
    simp [names, this, TerrariaPlayer.Name]
  | some p =>
    have hn : n ∈ names s := by
      by_contra hc
      rw [Player_loop_eq_none.mpr hc] at h
      cases h
    simp [hn]

theorem RemovePlayer_names (s : TerrariaServer) (n : String) :
    names (RemovePlayer s n).1
      = (s.players.eraseP (fun q => decide (q.Name = n))).map TerrariaPlayer.Name := by
  unfold RemovePlayer
  cases h : RemovePlayer.loop n s.players 0 with
  | none =>
    have hn := RemovePlayer_loop_eq_none.mp h
    have : s.players.eraseP (fun q => decide (q.Name = n)) = s.players := by
      apply List.eraseP_of_forall_not
      intro q hq
      simp only [decide_eq_true_eq]
      intro e
      exact hn (List.mem_map.mpr ⟨q, hq, e⟩)
    simp [names, this]
  | some r =>
    obtain ⟨k, p⟩ := r
    have := (RemovePlayer_loop_some h).2.2
    simp only [Nat.sub_zero] at this
    simp [names, this]

theorem runRoster_nodup (ParseIP : String → IP) (calls : List RosterCall) :
    (names (runRoster ParseIP calls)).Nodup := by
  unfold runRoster
  induction calls using List.reverseRecOn with
  | nil => simp [names, NewTerrariaServer]
  | append_singleton cs c ih =>
    rw [List.foldl_append]
    simp only [List.foldl_cons, List.foldl_nil]
    cases c with
    | newPlayer n ips =>
      simp only [RosterCall.run]
      rw [NewPlayer_names]
      split
      · exact ih
      · rename_i hn
        exact List.Nodup.append ih (List.nodup_singleton n) (by simpa using hn)
    | removePlayer n =>
      simp only [RosterCall.run]
      rw [RemovePlayer_names]
      exact List.Nodup.sublist (List.Sublist.map _ (List.eraseP_sublist _)) ih

/-- C9. After any sequence of `NewPlayer` and `RemovePlayer` calls on a freshly constructed
server no two players of the list share a name; a further `NewPlayer(n, _)` leaves a player
named `n` on the roster; a further `RemovePlayer(n)` returns true exactly when a player
named `n` was present, and leaves none named `n`. -/
theorem roster_names_unique (ParseIP : String → IP) (calls : List RosterCall) :
    (names (runRoster ParseIP calls)).Nodup ∧
    (∀ n ips, n ∈ names (NewPlayer ParseIP (runRoster ParseIP calls) n ips).server) ∧
    (∀ n, ((RemovePlayer (runRoster ParseIP calls) n).2.1 = true
            ↔ n ∈ names (runRoster ParseIP calls)) ∧
          n ∉ names (RemovePlayer (runRoster ParseIP calls) n).1) := by
  have hnd := runRoster_nodup ParseIP calls
  refine ⟨hnd, fun n ips => ?_, fun n => ⟨?_, ?_⟩⟩
  · rw [NewPlayer_names]
    split
    · assumption
    · simp
  · unfold RemovePlayer
    cases h : RemovePlayer.loop n (runRoster ParseIP calls).players 0 with
    | none =>
      have hn := RemovePlayer_loop_eq_none.mp h
      simp [names, hn]
    | some r =>
      have hn : n ∈ names (runRoster ParseIP calls) := by
        by_contra hc
        rw [RemovePlayer_loop_eq_none.mpr hc] at h
        cases h
      simp [hn]
  · rw [RemovePlayer_names]
    exact not_mem_names_eraseP hnd

/-- C2 at the failing input: after `NewPlayer("Steve", "1.2.3.4")` and then
`NewPlayer("Steve", "5.6.7.8")` on a fresh server the roster holds one player named Steve,
and the address that player and the returned player report is still 1.2.3.4. -/
theorem NewPlayer_twice_keeps_first_address :
    (NewPlayer ParseIPv4 (NewPlayer ParseIPv4 NewTerrariaServer "Steve" "1.2.3.4").server
        "Steve" "5.6.7.8").server.players
      = [⟨some [0, 0, 0, 0, 0, 0, 0, 0, 0, 0, 255, 255, 1, 2, 3, 4], "Steve"⟩] ∧
    (NewPlayer ParseIPv4 (NewPlayer ParseIPv4 NewTerrariaServer "Steve" "1.2.3.4").server
        "Steve" "5.6.7.8").player.IP
      = some [0, 0, 0, 0, 0, 0, 0, 0, 0, 0, 255, 255, 1, 2, 3, 4] ∧
    ParseIPv4 "5.6.7.8" = some [0, 0, 0, 0, 0, 0, 0, 0, 0, 0, 255, 255, 5, 6, 7, 8] := by
  decide

/-- Whatever `ParseIP` does: a second `NewPlayer` for a name already present changes
nothing and returns the player already there. -/
theorem NewPlayer_present (ParseIP : String → IP) (s : TerrariaServer) (n ips : String)
    (h : n ∈ names s) :
    (NewPlayer ParseIP s n ips).server = s ∧
    s.Player n = some (NewPlayer ParseIP s n ips).player ∧
    (NewPlayer ParseIP s n ips).logs = [] := by
  unfold NewPlayer
  cases hp : s.Player n with
  | none =>
    exact absurd h (Player_loop_eq_none.mp hp)
  | some p => simp

/-! ### Event classification -/

theorem EventType_loop_range (l : List Regexp) (s : String) (i : Nat) :
    EventType.loop l s i = -1 ∨
      ∃ k : Nat, k < l.length ∧ EventType.loop l s i = ((i + k : Nat) : Int) := by
  induction l generalizing i with
  | nil => left; rfl
  | cons re rest ih =>
    by_cases h : re.MatchString s = true
    · right
      exact ⟨0, by simp, by simp [EventType.loop, h]⟩
    · rcases ih (i + 1) with h1 | ⟨k, hk, h1⟩
      · left; simp [EventType.loop, h, h1]
      · right
        refine ⟨k + 1, by simpa using hk, ?_⟩
        simp only [EventType.loop, h, h1]
        simp only [Bool.false_eq_true, if_false]
        congr 1
        omega

theorem EventType_loop_eq_neg_one (l : List Regexp) (s : String) (i : Nat) :
    EventType.loop l s i = -1 ↔ ∀ re ∈ l, re.MatchString s = false := by
  induction l generalizing i with
  | nil => simp [EventType.loop]
  | cons re rest ih =>
    by_cases h : re.MatchString s = true
    · have hne : ((i : Nat) : Int) ≠ -1 := by omega
      simp [EventType.loop, h, hne]
    · have h' : re.MatchString s = false := by simpa using h
      simp [EventType.loop, h', ih]

theorem EventType_loop_eq_index (l : List Regexp) (s : String) (i k : Nat) :
    EventType.loop l s i = ((i + k : Nat) : Int) ↔
      ∃ re, l[k]? = some re ∧ re.MatchString s = true ∧
        ∀ j, j < k → ∀ r, l[j]? = some r → r.MatchString s = false := by
  induction l generalizing i k with
  | nil =>
    simp only [EventType.loop, List.getElem?_nil]
    constructor
    · intro e; omega
    · rintro ⟨r, hr, -⟩; cases hr
  | cons re rest ih =>
    by_cases h : re.MatchString s = true
    · cases k with
      | zero => simp [EventType.loop, h]
      | succ k =>
        simp only [EventType.loop, h, if_true]
        constructor
        · intro e; omega
        · rintro ⟨r, -, -, hall⟩
          have := hall 0 (Nat.succ_pos k) re (by simp)
          rw [h] at this
          cases this
    · have h' : re.MatchString s = false := by simpa using h
      cases k with
      | zero =>
        simp only [EventType.loop, h', Bool.false_eq_true, if_false]
        constructor
        · intro e
          rcases EventType_loop_range rest s (i + 1) with h1 | ⟨m, -, h1⟩
          · rw [h1] at e; omega
          · rw [h1] at e; omega
        · rintro ⟨r, hr, hm, -⟩
          simp at hr
          subst hr
          rw [h'] at hm
          cases hm
      | succ k =>
        have e : i + (k + 1) = (i + 1) + k := by omega
        simp only [EventType.loop, h', Bool.false_eq_true, if_false]
        rw [e, ih (i + 1) k]
        constructor
        · rintro ⟨r, hr, hm, hall⟩
          refine ⟨r, by simpa using hr, hm, ?_⟩
          intro j hj r' hr'
          cases j with
          | zero =>
            simp at hr'
            subst hr'
            exact h'
          | succ j => exact hall j (by omega) r' (by simpa using hr')
        · rintro ⟨r, hr, hm, hall⟩
          refine ⟨r, by simpa using hr, hm, ?_⟩
          intro j hj r' hr'
          exact hall (j + 1) (by omega) r' (by simpa using hr')

/-- C3. For every pattern table and every line: `EventType` returns the index `i` exactly
when pattern `i` matches the line and no pattern of smaller index does; it returns -1
exactly when no pattern of the table matches; and it returns nothing else. -/
theorem EventType_first_match (gameEvents : List Regexp) (s : String) :
    (∀ i : Nat, EventType gameEvents s = (i : Int) ↔
      ∃ re, gameEvents[i]? = some re ∧ re.MatchString s = true ∧
        ∀ j, j < i → ∀ r, gameEvents[j]? = some r → r.MatchString s = false) ∧
    (EventType gameEvents s = -1 ↔ ∀ re ∈ gameEvents, re.MatchString s = false) ∧
    (EventType gameEvents s = -1 ∨
      ∃ i : Nat, i < gameEvents.length ∧ EventType gameEvents s = (i : Int)) := by
  refine ⟨fun i => ?_, EventType_loop_eq_neg_one gameEvents s 0, ?_⟩
  · have := EventType_loop_eq_index gameEvents s 0 i
    simpa [EventType] using this
  · rcases EventType_loop_range gameEvents s 0 with h | ⟨k, hk, h⟩
    · exact Or.inl h
    · exact Or.inr ⟨k, hk, by simpa [EventType] using h⟩

/-! ### Output scanner -/

theorem stripLoop_of_HasPrefix {out : String} (h : HasPrefix out ":" = true) :
    stripLoop out = stripLoop (stripOnce out) := by
  rw [stripLoop, if_pos h]

theorem stripLoop_of_not_HasPrefix {out : String} (h : HasPrefix out ":" = false) :
    stripLoop out = out := by
  rw [stripLoop, if_neg (by simp [h])]

theorem stripOnce_length_lt {out : String} (h : HasPrefix out ":" = true) :
    (stripOnce out).length < out.length := by
  have hp : out.data.take 1 = [Char.ofNat 58] := by
    simpa [HasPrefix] using h
  have hlen : 1 ≤ out.data.length := by
    cases hd : out.data with
    | nil => rw [hd] at hp; simp at hp
    | cons c cs => simp
  have h1 : ∀ l : List Char, (l.dropWhile isSpace).length ≤ l.length := fun l =>
    (List.dropWhile_sublist isSpace).length_le
  have h2 : (TrimSpace (TrimPrefix out ":")).length ≤ (TrimPrefix out ":").length := by
    simp only [TrimSpace, String.length, List.length_reverse]
    exact le_trans (h1 _) (by simpa using h1 _)
  have h3 : (TrimPrefix out ":").length = out.length - 1 := by
    unfold TrimPrefix
    rw [if_pos h]
    show (out.data.drop 1).length = out.data.length - 1
    exact List.length_drop 1 out.data
  simp only [stripOnce]
  have h4 : out.length = out.data.length := rfl
  omega

theorem stripLoop_no_HasPrefix (out : String) : HasPrefix (stripLoop out) ":" = false := by
  induction out using stripLoop.induct with
  | case1 out h ih => rw [stripLoop_of_HasPrefix h]; exact ih
  | case2 out h =>
    have h' : HasPrefix out ":" = false := by simpa using h
    rw [stripLoop_of_not_HasPrefix h']; exact h'

theorem stripLoop_iterate (out : String) :
    ∃ n, n ≤ out.length ∧ stripOnce^[n] out = stripLoop out := by
  induction out using stripLoop.induct with
  | case1 out h ih =>
    obtain ⟨n, hn, e⟩ := ih
    refine ⟨n + 1, ?_, ?_⟩
    · have := stripOnce_length_lt h
      omega
    · rw [Function.iterate_succ_apply, e, stripLoop_of_HasPrefix h]
  | case2 out h =>
    have h' : HasPrefix out ":" = false := by simpa using h
    exact ⟨0, Nat.zero_le _, by simp [stripLoop_of_not_HasPrefix h']⟩

theorem stripLoop_example : stripLoop ": : foo" = "foo" := by
  rw [stripLoop_of_HasPrefix (by decide), show stripOnce ": : foo" = ": foo" by decide,
    stripLoop_of_HasPrefix (by decide), show stripOnce ": foo" = "foo" by decide,
    stripLoop_of_not_HasPrefix (by decide)]

/-- C10. For every line: an iteration of the stripping loop strictly shortens the line, the
loop ends after at most as many iterations as the line has characters, the line it
produces does not begin with ":", a line that does not begin with ":" is produced
unchanged, and ": : foo" becomes "foo". -/
theorem stripLoop_terminates_clean (out : String) :
    (HasPrefix out ":" = true → (stripOnce out).length < out.length) ∧
    (∃ n, n ≤ out.length ∧ stripOnce^[n] out = stripLoop out) ∧
    HasPrefix (stripLoop out) ":" = false ∧
    (HasPrefix out ":" = false → stripLoop out = out) ∧
    stripLoop ": : foo" = "foo" :=
  ⟨stripOnce_length_lt, stripLoop_iterate out, stripLoop_no_HasPrefix out,
    stripLoop_of_not_HasPrefix, stripLoop_example⟩

/-- Witness for C10: a line with three stacked artifacts, and a line without one. -/
theorem stripLoop_terminates_clean_witness :
    (stripOnce ":: :Server started").length < (":: :Server started").length ∧
    HasPrefix (stripLoop ":: :Server started") ":" = false ∧
    stripLoop "Server started" = "Server started" :=
  ⟨(stripLoop_terminates_clean ":: :Server started").1 (by decide),
    (stripLoop_terminates_clean ":: :Server started").2.2.1,
    (stripLoop_terminates_clean "Server started").2.2.2.1 (by decide)⟩

theorem scanLines_ready (G : String → Event) (lines : List String) :
    scanLines G true lines = (true, lines.map fun l => classify G (stripLoop l)) := by
  induction lines with
  | nil => rfl
  | cons l rest ih => simp [scanLines, scanLine, ih]

theorem scanLines_init (G : String → Event) (pre rest : List String)
    (hpre : ∀ l ∈ pre, stripLoop l ≠ "Server started") :
    scanLines G false (pre ++ rest) =
      ((scanLines G false rest).1,
        (pre.map fun l => Action.log (LogInit (stripLoop l))) ++ (scanLines G false rest).2) := by
  induction pre with
  | nil => simp
  | cons l pre ih =>
    have hl := hpre l (List.mem_cons_self _ _)
    have ih' := ih fun x hx => hpre x (List.mem_cons_of_mem _ hx)
    simp [scanLines, scanLine, hl, ih']

theorem scanLines_sentinel (G : String → Event) (x : String) (post : List String)
    (hx : stripLoop x = "Server started") :
    scanLines G false (x :: post) =
      (true, [Action.log (LogInit "Terraria server INIT completed"), Action.closeReady] ++
        post.map fun l => classify G (stripLoop l)) := by
  simp [scanLines, scanLine, hx, scanLines_ready]

theorem classify_ne_closeReady (G : String → Event) (out : String) :
    classify G out ≠ Action.closeReady := by
  simp only [classify]
  split_ifs <;> simp

theorem classify_is_handler (G : String → Event) (out : String) :
    ∃ ch, classify G out = Action.handler (G out) out ch := by
  simp only [classify]
  split_ifs
  · exact ⟨_, rfl⟩
  · exact ⟨_, rfl⟩
  · exact ⟨_, rfl⟩

/-- C7. For every sequence of lines with a first line `x` whose cleaned form is "Server
started" (`pre` before it, `post` after it): every line of `pre` is logged as init output, in
order, and nothing else happens for it; at `x` the completion message is logged and `ready`
is closed, which happens exactly once in the whole run; every line of `post`, cleaned, goes
to the classifier and its handler is called, none is logged as init output.  Without such a
line every line is logged as init output and `ready` stays open.  On
[":Init line", "Server started", ":Steve has joined."] this gives two init log entries,
`ready` closed at the second line and the handler called for "Steve has joined.", which the
pattern table of `init` classifies as event 0. -/
theorem superviseTerrariaOut_phases (G : String → Event) (pre post : List String) (x : String) :
    ((∀ l ∈ pre, stripLoop l ≠ "Server started") → stripLoop x = "Server started" →
      superviseTerrariaOut G (pre ++ x :: post) =
        (true, [Action.log (LogDebug "Started Terraria supervisor")] ++
          (pre.map fun l => Action.log (LogInit (stripLoop l))) ++
          [Action.log (LogInit "Terraria server INIT completed"), Action.closeReady] ++
          (post.map fun l => classify G (stripLoop l))) ∧
      (superviseTerrariaOut G (pre ++ x :: post)).2.count Action.closeReady = 1 ∧
      (∀ l ∈ post, ∃ ch, classify G (stripLoop l)
          = Action.handler (G (stripLoop l)) (stripLoop l) ch)) ∧
    ((∀ l ∈ pre, stripLoop l ≠ "Server started") →
      superviseTerrariaOut G pre =
        (false, Action.log (LogDebug "Started Terraria supervisor") ::
          pre.map fun l => Action.log (LogInit (stripLoop l))) ∧
      (superviseTerrariaOut G pre).2.count Action.closeReady = 0) ∧
    superviseTerrariaOut G [":Init line", "Server started", ":Steve has joined."] =
      (true, [Action.log (LogDebug "Started Terraria supervisor"),
        Action.log (LogInit "Init line"),
        Action.log (LogInit "Terraria server INIT completed"),
        Action.closeReady,
        classify G "Steve has joined."]) ∧
    EventType gameEvents "Steve has joined." = 0 ∧
    (gameEvents.map Regexp.expr)[0]? = some "^.{1,20} has joined.$" := by
  have key : (∀ l ∈ pre, stripLoop l ≠ "Server started") → stripLoop x = "Server started" →
      superviseTerrariaOut G (pre ++ x :: post) =
        (true, [Action.log (LogDebug "Started Terraria supervisor")] ++
          (pre.map fun l => Action.log (LogInit (stripLoop l))) ++
          [Action.log (LogInit "Terraria server INIT completed"), Action.closeReady] ++
          (post.map fun l => classify G (stripLoop l))) := by
    intro hpre hx
    simp [superviseTerrariaOut, scanLines_init G pre (x :: post) hpre, scanLines_sentinel G x post hx]
  refine ⟨fun hpre hx => ⟨key hpre hx, ?_, fun l _ => classify_is_handler G _⟩, fun hpre => ?_,
    ?_, by decide, by decide⟩
  · rw [key hpre hx]
    have h1 : List.count Action.closeReady (pre.map fun l => Action.log (LogInit (stripLoop l)))
        = 0 := by
      apply List.count_eq_zero_of_not_mem
      simp
    have h2 : List.count Action.closeReady (post.map fun l => classify G (stripLoop l)) = 0 := by
      apply List.count_eq_zero_of_not_mem
      intro hm
      obtain ⟨l, -, e⟩ := List.mem_map.mp hm
      exact classify_ne_closeReady G _ e
    simp [List.count_append, h1, h2, List.count_cons]
  · have := scanLines_init G pre [] hpre
    simp only [List.append_nil] at this
    have e : superviseTerrariaOut G pre =
        (false, Action.log (LogDebug "Started Terraria supervisor") ::
          pre.map fun l => Action.log (LogInit (stripLoop l))) := by
      simp [superviseTerrariaOut, this, scanLines]
    refine ⟨e, ?_⟩
    rw [e]
    apply List.count_eq_zero_of_not_mem
    simp
  · have e1 : stripLoop ":Init line" = "Init line" := by
      rw [stripLoop_of_HasPrefix (by decide), show stripOnce ":Init line" = "Init line" by decide,
        stripLoop_of_not_HasPrefix (by decide)]
    have e2 : stripLoop "Server started" = "Server started" :=
      stripLoop_of_not_HasPrefix (by decide)
    have e3 : stripLoop ":Steve has joined." = "Steve has joined." := by
      rw [stripLoop_of_HasPrefix (by decide),
        show stripOnce ":Steve has joined." = "Steve has joined." by decide,
        stripLoop_of_not_HasPrefix (by decide)]
    have hne : ¬ ("Init line" = "Server started") := by decide
    simp [superviseTerrariaOut, scanLines, scanLine, e1, e2, e3, hne]

/-- Witness for C7: the run of the claim, with a classifier that names the event after the
index `EventType` finds in the table of `init`. -/
theorem superviseTerrariaOut_phases_witness :
    superviseTerrariaOut (fun out => Event.mk (toString (EventType gameEvents out)))
        ([":Init line"] ++ "Server started" :: [":Steve has joined."]) =
      (true, [Action.log (LogDebug "Started Terraria supervisor")] ++
        ([":Init line"].map fun l => Action.log (LogInit (stripLoop l))) ++
        [Action.log (LogInit "Terraria server INIT completed"), Action.closeReady] ++
        ([":Steve has joined."].map fun l =>
          classify (fun out => Event.mk (toString (EventType gameEvents out))) (stripLoop l))) :=
  ((superviseTerrariaOut_phases (fun out => Event.mk (toString (EventType gameEvents out)))
      [":Init line"] [":Steve has joined."] "Server started").1
    (by
      intro l hl
      rw [List.mem_singleton] at hl
      subst hl
      rw [stripLoop_of_HasPrefix (by decide), show stripOnce ":Init line" = "Init line" by decide,
        stripLoop_of_not_HasPrefix (by decide)]
      decide)
    (stripLoop_of_not_HasPrefix (by decide))).1

/-! ### Connection tracker -/

theorem Sub_gt_iff (a b : Int) : 30 * Second < Sub a b ↔ 30 * Second < a - b := by
  unfold Sub maxInt64 minInt64 Second
  split_ifs <;> omega

theorem lookup_erase_of_none {m : GoMap Int} {k a : String} (h : m.lookup k = none) :
    (m.erase a).lookup k = none := by
  by_cases e : k = a
  · subst e; exact AList.lookup_erase k m
  · rw [AList.lookup_erase_ne e]; exact h

theorem lookup_bumpStale (st : GoMap Int) (a k : String) :
    (bumpStale st a).lookup k = if k = a then some (nextCount (st.lookup a)) else st.lookup k := by
  unfold bumpStale nextCount
  by_cases e : k = a
  · subst e
    cases st.lookup k <;> simp [AList.lookup_insert]
  · cases st.lookup a <;> simp [e, AList.lookup_insert_ne e]

theorem sweepPending_fold_keep (now : String → Int) (l : List ((_ : String) × Int))
    (acc : Tracker × List Log) (k : String)
    (h : ∀ e ∈ l, e.1 = k → ¬ 30 * Second < Sub (now e.1) e.2) :
    (l.foldl (sweepPendingStep now) acc).1.newconnections.lookup k
        = acc.1.newconnections.lookup k ∧
    (l.foldl (sweepPendingStep now) acc).1.stale.lookup k = acc.1.stale.lookup k := by
  induction l generalizing acc with
  | nil => exact ⟨rfl, rfl⟩
  | cons e tl ih =>
    have ih' := ih (sweepPendingStep now acc e) fun x hx => h x (List.mem_cons_of_mem _ hx)
    rw [List.foldl_cons, ih'.1, ih'.2]
    unfold sweepPendingStep
    by_cases ho : 30 * Second < Sub (now e.1) e.2
    · have hk : k ≠ e.1 := fun hk => h e (List.mem_cons_self _ _) hk.symm ho
      simp [ho, AList.lookup_erase_ne hk, lookup_bumpStale, hk]
    · simp [ho]

theorem sweepPending_fold_gone (now : String → Int) (l : List ((_ : String) × Int))
    (acc : Tracker × List Log) (k : String) (h : acc.1.newconnections.lookup k = none) :
    (l.foldl (sweepPendingStep now) acc).1.newconnections.lookup k = none := by
  induction l generalizing acc with
  | nil => exact h
  | cons e tl ih =>
    rw [List.foldl_cons]
    apply ih
    unfold sweepPendingStep
    split_ifs
    · exact lookup_erase_of_none h
    · exact h

theorem sweepPending_fold_remove (now : String → Int) (l : List ((_ : String) × Int))
    (acc : Tracker × List Log) (k : String) (hnd : l.NodupKeys)
    (h : ∃ e ∈ l, e.1 = k ∧ 30 * Second < Sub (now e.1) e.2) :
    (l.foldl (sweepPendingStep now) acc).1.newconnections.lookup k = none ∧
    (l.foldl (sweepPendingStep now) acc).1.stale.lookup k
        = some (nextCount (acc.1.stale.lookup k)) ∧
    LogWarning ("Stale connection found for IP: " ++ k) ∈ (l.foldl (sweepPendingStep now) acc).2 := by
  induction l generalizing acc with
  | nil => obtain ⟨e, he, -⟩ := h; cases he
  | cons e0 tl ih =>
    obtain ⟨hnot, hnd'⟩ := List.nodupKeys_cons.mp hnd
    rw [List.foldl_cons]
    by_cases h0 : e0.1 = k ∧ 30 * Second < Sub (now e0.1) e0.2
    · obtain ⟨hk, ho⟩ := h0
      have hstep : sweepPendingStep now acc e0 =
          ({ newconnections := acc.1.newconnections.erase e0.1,
             stale := bumpStale acc.1.stale e0.1 },
            acc.2 ++ [LogWarning ("Stale connection found for IP: " ++ e0.1)]) := by
        simp [sweepPendingStep, ho]
      have htl : ∀ x ∈ tl, x.1 = k → ¬ 30 * Second < Sub (now x.1) x.2 := by
        intro x hx hxk _
        apply hnot
        rw [hk, ← hxk]
        exact List.mem_keys_of_mem hx
      refine ⟨?_, ?_, ?_⟩
      · apply sweepPending_fold_gone
        rw [hstep, hk]
        exact AList.lookup_erase k _
      · rw [(sweepPending_fold_keep now tl _ k htl).2, hstep, hk]
        simp [lookup_bumpStale]
      · have hmono : ∀ (l : List ((_ : String) × Int)) (a : Tracker × List Log) (x : Log),
            x ∈ a.2 → x ∈ (l.foldl (sweepPendingStep now) a).2 := by
          intro l
          induction l with
          | nil => intro a x hx; exact hx
          | cons y ys ihy =>
            intro a x hx
            rw [List.foldl_cons]
            apply ihy
            unfold sweepPendingStep
            split_ifs
            · exact List.mem_append_left _ hx
            · exact hx
        apply hmono
        rw [hstep, hk]
        simp
    · obtain ⟨e, he, hek, heo⟩ := h
      have hetl : e ∈ tl := by
        rcases List.mem_cons.mp he with rfl | hx
        · exact absurd ⟨hek, heo⟩ h0
        · exact hx
      have ih' := ih (sweepPendingStep now acc e0) hnd' ⟨e, hetl, hek, heo⟩
      refine ⟨ih'.1, ?_, ih'.2.2⟩
      rw [ih'.2.1]
      unfold sweepPendingStep
      by_cases ho : 30 * Second < Sub (now e0.1) e0.2
      · have hk : k ≠ e0.1 := fun hk => h0 ⟨hk.symm, ho⟩
        simp [ho, lookup_bumpStale, hk]
      · simp [ho]

theorem sweepStale_fold_newconnections (l : List ((_ : String) × Int))
    (acc : Tracker × List Log) :
    (l.foldl sweepStaleStep acc).1.newconnections = acc.1.newconnections := by
  induction l generalizing acc with
  | nil => rfl
  | cons e tl ih => rw [List.foldl_cons, ih]; rfl

theorem sweepStale_fold_gone (l : List ((_ : String) × Int)) (acc : Tracker × List Log)
    (k : String) (h : acc.1.stale.lookup k = none) :
    (l.foldl sweepStaleStep acc).1.stale.lookup k = none := by
  induction l generalizing acc with
  | nil => exact h
  | cons e tl ih =>
    rw [List.foldl_cons]
    apply ih
    exact lookup_erase_of_none h

theorem sweepStale_fold_erased (l : List ((_ : String) × Int)) (acc : Tracker × List Log)
    (k : String) (h : k ∈ l.keys) :
    (l.foldl sweepStaleStep acc).1.stale.lookup k = none := by
  induction l generalizing acc with
  | nil => cases h
  | cons e tl ih =>
    rw [List.foldl_cons]
    by_cases hk : k = e.1
    · apply sweepStale_fold_gone
      subst hk
      exact AList.lookup_erase _ _
    · apply ih
      rw [List.keys_cons] at h
      rcases List.mem_cons.mp h with h | h
      · exact absurd h hk
      · exact h

theorem timerBranch_stale_empty (now : String → Int) (t : Tracker) (A : String) :
    (timerBranch now t).1.stale.lookup A = none := by
  unfold timerBranch sweepStale
  simp only
  by_cases h : A ∈ (sweepPending now t).1.stale.entries.keys
  · exact sweepStale_fold_erased _ _ A h
  · apply sweepStale_fold_gone
    exact AList.lookup_eq_none.mpr h

theorem timerBranch_newconnections (now : String → Int) (t : Tracker) :
    (timerBranch now t).1.newconnections = (sweepPending now t).1.newconnections := by
  unfold timerBranch sweepStale
  simp only
  rw [sweepStale_fold_newconnections]

theorem sweepPending_entry (now : String → Int) (t : Tracker) (A : String) (ts : Int)
    (h : t.newconnections.lookup A = some ts) :
    (30 * Second < now A - ts →
      (sweepPending now t).1.newconnections.lookup A = none ∧
      (sweepPending now t).1.stale.lookup A = some (nextCount (t.stale.lookup A)) ∧
      LogWarning ("Stale connection found for IP: " ++ A) ∈ (sweepPending now t).2) ∧
    (now A - ts ≤ 30 * Second →
      (sweepPending now t).1.newconnections.lookup A = some ts ∧
      (sweepPending now t).1.stale.lookup A = t.stale.lookup A) := by
  have hmem : Sigma.mk A ts ∈ t.newconnections.entries :=
    AList.mem_lookup_iff.mp (by rw [h]; rfl)
  constructor
  · intro hold
    exact sweepPending_fold_remove now _ (t, []) A t.newconnections.nodupKeys
      ⟨⟨A, ts⟩, hmem, rfl, (Sub_gt_iff _ _).mpr hold⟩
  · intro hyoung
    have hkeep : ∀ e ∈ t.newconnections.entries, e.1 = A →
        ¬ 30 * Second < Sub (now e.1) e.2 := by
      rintro ⟨a, b⟩ he rfl
      have : b = ts := t.newconnections.nodupKeys.eq_of_mk_mem he hmem
      subst this
      rw [Sub_gt_iff]
      exact not_lt.mpr hyoung
    have := sweepPending_fold_keep now _ (t, []) A hkeep
    exact ⟨by rw [sweepPending, this.1]; exact h, by rw [sweepPending, this.2]⟩

theorem sweepPending_absent (now : String → Int) (t : Tracker) (A : String)
    (h : t.newconnections.lookup A = none) :
    (sweepPending now t).1.newconnections.lookup A = none ∧
    (sweepPending now t).1.stale.lookup A = t.stale.lookup A := by
  have hkeep : ∀ e ∈ t.newconnections.entries, e.1 = A →
      ¬ 30 * Second < Sub (now e.1) e.2 := by
    rintro ⟨a, b⟩ he rfl
    have : b ∈ t.newconnections.lookup a := AList.mem_lookup_iff.mpr he
    rw [h] at this
    cases this
  have := sweepPending_fold_keep now _ (t, []) A hkeep
  exact ⟨by rw [sweepPending, this.1]; exact h, by rw [sweepPending, this.2]⟩

theorem nextCount_some {n : Int} (h1 : inInt64 n) (h2 : n < maxInt64) :
    nextCount (some n) = n + 1 := by
  unfold nextCount add64
  apply wrap64_of_inInt64
  unfold inInt64 minInt64 maxInt64 at *
  omega

theorem playerInfoBranch_spec (F : String → List String) (t : Tracker) (plr A : String)
    (h : (F plr)[2]? = some A) :
    ∃ r, playerInfoBranch F t plr = some r ∧
      r.1.newconnections.lookup A = none ∧ r.1.stale.lookup A = none ∧
      ∀ B, B ≠ A → r.1.newconnections.lookup B = t.newconnections.lookup B ∧
        r.1.stale.lookup B = t.stale.lookup B := by
  obtain ⟨name, hname⟩ : ∃ name, (F plr)[1]? = some name := by
    rcases hF : F plr with _ | ⟨a, _ | ⟨b, l⟩⟩
    · rw [hF] at h; simp at h
    · rw [hF] at h; simp at h
    · exact ⟨b, by simp⟩
  simp only [playerInfoBranch, h, hname]
  refine ⟨_, rfl, ?_, ?_, fun B hB => ⟨?_, ?_⟩⟩
  · by_cases hp : (t.newconnections.lookup A).isSome
    · simp [hp, AList.lookup_erase]
    · simp only [hp]
      simpa using hp
  · by_cases hp : (t.stale.lookup A).isSome
    · simp [hp, AList.lookup_erase]
    · simp only [hp]
      simpa using hp
  · by_cases hp : (t.newconnections.lookup A).isSome
    · simp [hp, AList.lookup_erase_ne hB]
    · simp [hp]
  · by_cases hp : (t.stale.lookup A).isSome
    · simp [hp, AList.lookup_erase_ne hB]
    · simp [hp]

/-- C4 (as stated) fails: the address 1.2.3.4, pending for 31 s with stale count 2, is removed
by the sweep, and its stale count after the sweep is 0, not 3. -/
theorem timerBranch_stale_counterexample :
    (AList.singleton "1.2.3.4" 0 : GoMap Int).lookup "1.2.3.4" = some 0 ∧
    30 * Second < 31 * Second - 0 ∧
    (timerBranch (fun _ => 31 * Second)
        ⟨AList.singleton "1.2.3.4" 0, AList.singleton "1.2.3.4" 2⟩).1.newconnections.lookup
      "1.2.3.4" = none ∧
    staleCount (AList.singleton "1.2.3.4" 2) "1.2.3.4" = 2 ∧
    staleCount (timerBranch (fun _ => 31 * Second)
        ⟨AList.singleton "1.2.3.4" 0, AList.singleton "1.2.3.4" 2⟩).1.stale "1.2.3.4" = 0 ∧
    ¬ (staleCount (timerBranch (fun _ => 31 * Second)
        ⟨AList.singleton "1.2.3.4" 0, AList.singleton "1.2.3.4" 2⟩).1.stale "1.2.3.4"
      = staleCount (AList.singleton "1.2.3.4" 2) "1.2.3.4" + 1) := by
  decide

/-- C4 (amended). For every tracker state and every clock: the sweep keeps every pending
address whose age is at most 30 s, with its instant, and removes every pending address whose
age exceeds 30 s, logging it; for an address it removes, the first loop raises the stale
count by one (to 1 if there was no entry), for any other address the first loop leaves the
stale entry as it was; the threshold loop that follows in the same sweep deletes every
stale entry, so that after the sweep no address has a stale count. -/
theorem timerBranch_sweep (now : String → Int) (t : Tracker) (A : String) :
    (∀ ts, t.newconnections.lookup A = some ts → now A - ts ≤ 30 * Second →
      (timerBranch now t).1.newconnections.lookup A = some ts ∧
      (sweepPending now t).1.stale.lookup A = t.stale.lookup A) ∧
    (∀ ts, t.newconnections.lookup A = some ts → 30 * Second < now A - ts →
      (timerBranch now t).1.newconnections.lookup A = none ∧
      LogWarning ("Stale connection found for IP: " ++ A) ∈ (timerBranch now t).2 ∧
      (t.stale.lookup A = none → (sweepPending now t).1.stale.lookup A = some 1) ∧
      (∀ n, t.stale.lookup A = some n → inInt64 n → n < maxInt64 →
        (sweepPending now t).1.stale.lookup A = some (n + 1))) ∧
    (t.newconnections.lookup A = none →
      (timerBranch now t).1.newconnections.lookup A = none ∧
      (sweepPending now t).1.stale.lookup A = t.stale.lookup A) ∧
    (timerBranch now t).1.stale.lookup A = none ∧
    staleCount (timerBranch now t).1.stale A = 0 := by
  have hst := timerBranch_stale_empty now t A
  refine ⟨fun ts h hy => ?_, fun ts h ho => ?_, fun h => ?_, hst, by simp [staleCount, hst]⟩
  · rw [timerBranch_newconnections]
    exact (sweepPending_entry now t A ts h).2 hy
  · obtain ⟨h1, h2, h3⟩ := (sweepPending_entry now t A ts h).1 ho
    rw [timerBranch_newconnections]
    refine ⟨h1, ?_, fun hn => ?_, fun n hn hr hlt => ?_⟩
    · simp only [timerBranch]
      exact List.mem_append_left _ h3
    · rw [h2, hn]; rfl
    · rw [h2, hn, nextCount_some hr hlt]
  · rw [timerBranch_newconnections]
    exact sweepPending_absent now t A h

/-- Witness for C4 (amended): 1.2.3.4 has been pending for 31 s with stale count 2,
5.6.7.8 for 11 s. -/
theorem timerBranch_sweep_witness :
    (timerBranch (fun _ => 31 * Second)
        ⟨(AList.singleton "1.2.3.4" 0).insert "5.6.7.8" (20 * Second),
          AList.singleton "1.2.3.4" 2⟩).1.newconnections.lookup "5.6.7.8"
      = some (20 * Second) ∧
    (timerBranch (fun _ => 31 * Second)
        ⟨(AList.singleton "1.2.3.4" 0).insert "5.6.7.8" (20 * Second),
          AList.singleton "1.2.3.4" 2⟩).1.newconnections.lookup "1.2.3.4" = none ∧
    (sweepPending (fun _ => 31 * Second)
        ⟨(AList.singleton "1.2.3.4" 0).insert "5.6.7.8" (20 * Second),
          AList.singleton "1.2.3.4" 2⟩).1.stale.lookup "1.2.3.4" = some (2 + 1) :=
  ⟨((timerBranch_sweep (fun _ => 31 * Second)
        ⟨(AList.singleton "1.2.3.4" 0).insert "5.6.7.8" (20 * Second),
          AList.singleton "1.2.3.4" 2⟩ "5.6.7.8").1 (20 * Second) (by decide) (by decide)).1,
    ((timerBranch_sweep (fun _ => 31 * Second)
        ⟨(AList.singleton "1.2.3.4" 0).insert "5.6.7.8" (20 * Second),
          AList.singleton "1.2.3.4" 2⟩ "1.2.3.4").2.1 0 (by decide) (by decide)).1,
    ((timerBranch_sweep (fun _ => 31 * Second)
        ⟨(AList.singleton "1.2.3.4" 0).insert "5.6.7.8" (20 * Second),
          AList.singleton "1.2.3.4" 2⟩ "1.2.3.4").2.1 0 (by decide) (by decide)).2.2.2
      2 (by decide) (by decide) (by decide)⟩

/-- C5. For every tracker state and every player-info event whose captured address is `A`:
the branch completes, and afterwards `A` is not pending and has no stale entry (its stale
count is zero), while the pending entry and the stale entry of every other address are as
before. -/
theorem playerInfoBranch_clears (F : String → List String) (t : Tracker) (plr A : String)
    (h : (F plr)[2]? = some A) :
    ∃ r, playerInfoBranch F t plr = some r ∧
      r.1.newconnections.lookup A = none ∧ r.1.stale.lookup A = none ∧
      staleCount r.1.stale A = 0 ∧
      ∀ B, B ≠ A → r.1.newconnections.lookup B = t.newconnections.lookup B ∧
        r.1.stale.lookup B = t.stale.lookup B := by
  obtain ⟨r, h1, h2, h3, h4⟩ := playerInfoBranch_spec F t plr A h
  exact ⟨r, h1, h2, h3, by simp [staleCount, h3], h4⟩

/-- Witness for C5: the event captures the name Steve and the address 1.2.3.4, which is
pending with stale count 3. -/
theorem playerInfoBranch_clears_witness :
    ∃ r, playerInfoBranch (fun plr => [plr, "Steve", "1.2.3.4"])
        ⟨AList.singleton "1.2.3.4" 0, AList.singleton "1.2.3.4" 3⟩ "Steve is 1.2.3.4" = some r ∧
      r.1.newconnections.lookup "1.2.3.4" = none ∧ r.1.stale.lookup "1.2.3.4" = none ∧
      staleCount r.1.stale "1.2.3.4" = 0 ∧
      ∀ B, B ≠ "1.2.3.4" →
        r.1.newconnections.lookup B = (AList.singleton "1.2.3.4" 0 : GoMap Int).lookup B ∧
        r.1.stale.lookup B = (AList.singleton "1.2.3.4" 3 : GoMap Int).lookup B :=
  playerInfoBranch_clears (fun plr => [plr, "Steve", "1.2.3.4"])
    ⟨AList.singleton "1.2.3.4" 0, AList.singleton "1.2.3.4" 3⟩ "Steve is 1.2.3.4" "1.2.3.4"
    (by decide)

end TerraControl
